import Mathlib

/-!
Verification development for the tmpfox repository (go.mitsakis.org/tmpfox).

This file gives a shallow embedding, in Lean 4, of the two self-contained
algorithms of the repository:

* the arkenfox release selector inside `run` in `main.go` (together with the
  helpers `githubTag.VersionMajorMinor` and `githubTag.VersionString`), and
* the extension-GUID extractors in `guid.go` (`extractGUIDFromHTML` and the
  manifest part of `extractGUIDFromZipFileManifest`).

Go `string`s are modelled as Lean `String`s (processed as `List Char`), Go
`int` as `Nat`/`Int` with the 64-bit range checks made explicit where the Go
standard library performs them (`strconv.Atoi` fails with `ErrRange` outside
the `int64` range).  Go's `regexp.FindStringSubmatch` on the two concrete
patterns used by the code is embedded as a direct leftmost-match scanner: both
patterns (`refs/tags/([0-9]+)\.([0-9]+)` and `refs/tags/(.+)`) are free of
backtracking because their adjacent pieces match disjoint character sets, so
maximal munch is exact.

The lenient XML decode (`encoding/xml` with `Strict=false`) and the JSON
decode (`encoding/json`) used by `guid.go` are embedded as executable parsers
covering the behaviour the Go decoders exhibit on the inputs the claims are
about: elements, attributes, character data, comment/doctype skipping and
invented end tags for the XML side; the full JSON grammar and the
`Unmarshal`-into-struct decoding (case-insensitive field match, `null`
leniency, integer range check) for the JSON side.
-/

/-! ## Basic character/string helpers -/

/-- Maximum value of Go's `int64`; `strconv.Atoi` fails beyond it. -/
def maxInt64 : Nat := 9223372036854775807

/-- Numeric value of a list of decimal digit characters, most significant
first, as computed by `strconv.Atoi` on an all-digit string. -/
def digitsVal (cs : List Char) : Nat :=
  cs.foldl (fun n c => n * 10 + (c.toNat - 48)) 0

/-- Model of `strconv.Atoi` restricted to the all-digit strings produced by
the `[0-9]+` capture groups: fails on the empty string and on values outside
the `int64` range (Go's `ErrRange`), otherwise returns the numeric value. -/
def goAtoi (cs : List Char) : Option Nat :=
  if cs = [] then none
  else if digitsVal cs ≤ maxInt64 then some (digitsVal cs) else none

/-- The character class `[0-9]` of the tag regular expression. -/
def isDigitChar (c : Char) : Bool := 48 ≤ c.toNat && c.toNat ≤ 57

/-- The literal `refs/tags/` that both tag regular expressions begin with. -/
def refsTagsLit : List Char := "refs/tags/".data

/-- Strip an expected literal from the front of the input, failing unless the
input starts with exactly that literal. -/
def stripLit : List Char → List Char → Option (List Char)
  | [], cs => some cs
  | _ :: _, [] => none
  | p :: ps, c :: cs => if c = p then stripLit ps cs else none

/-! ## `githubTag` and its version parsing (`main.go`) -/

/-- The `githubTag` struct of `main.go`: one entry of the GitHub
`matching-refs` JSON response. -/
structure GithubTag where
  ref : String
  url : String
deriving DecidableEq

/-- Attempt to match the regular expression `refs/tags/([0-9]+)\.([0-9]+)`
anchored at the start of the input, returning the two captured digit runs.
The digit runs are maximal (greedy), which is exact for this pattern because
`[0-9]` and `\.` are disjoint. -/
def matchVersionAt (cs : List Char) : Option (List Char × List Char) :=
  match stripLit refsTagsLit cs with
  | none => none
  | some rest =>
    let a := rest.takeWhile isDigitChar
    if a = [] then none
    else
      match rest.dropWhile isDigitChar with
      | [] => none
      | c :: rest2 =>
        if c = '.' then
          let b := rest2.takeWhile isDigitChar
          if b = [] then none else some (a, b)
        else none

/-- Leftmost match of `refs/tags/([0-9]+)\.([0-9]+)` in the input, as found
by Go's `regexp.FindStringSubmatch`: the first start position admitting a
match wins. -/
def findVersionMatch : List Char → Option (List Char × List Char)
  | [] => none
  | c :: cs =>
    match matchVersionAt (c :: cs) with
    | some r => some r
    | none => findVersionMatch cs

/-- Embedding of `githubTag.VersionMajorMinor` (`main.go`): run the regular
expression `refs/tags/([0-9]+)\.([0-9]+)` over the `Ref` field and convert
the two captures with `strconv.Atoi`; any failure yields an error (`none`). -/
def VersionMajorMinor (ref : String) : Option (Nat × Nat) :=
  match findVersionMatch ref.data with
  | none => none
  | some (a, b) =>
    match goAtoi a, goAtoi b with
    | some major, some minor => some (major, minor)
    | _, _ => none

/-- Attempt to match `refs/tags/(.+)` anchored at the start of the input:
the capture is the maximal run of non-newline characters following the
literal, and must be non-empty. -/
def matchVersionStringAt (cs : List Char) : Option (List Char) :=
  match stripLit refsTagsLit cs with
  | none => none
  | some rest =>
    let a := rest.takeWhile (fun c => c ≠ '\n')
    if a = [] then none else some a

/-- Leftmost match of `refs/tags/(.+)` in the input. -/
def findVersionStringMatch : List Char → Option (List Char)
  | [] => none
  | c :: cs =>
    match matchVersionStringAt (c :: cs) with
    | some r => some r
    | none => findVersionStringMatch cs

/-- Embedding of `githubTag.VersionString` (`main.go`): capture of
`refs/tags/(.+)` over the `Ref` field, error when there is no match. -/
def VersionString (ref : String) : Option String :=
  match findVersionStringMatch ref.data with
  | none => none
  | some cap => some (String.mk cap)

/-! ## The release selector inside `run` (`main.go`) -/

/-- The multi-tag selection loop of `run` (`main.go`): for each tag, parse
`(major, minor)`; skip tags that fail to parse and tags whose major differs
from the target; keep a running maximum of the minor version (starting at 0)
and remember the tag each time the strict comparison `minor > maxMinor`
succeeds.  `chosen = none` models the zero-valued `choosenTag`. -/
def selectLoop (target : Nat) : List GithubTag → Nat → Option GithubTag → Option GithubTag
  | [], _, chosen => chosen
  | tag :: rest, maxMinor, chosen =>
    match VersionMajorMinor tag.ref with
    | none => selectLoop target rest maxMinor chosen
    | some (major, minor) =>
      if major ≠ target then selectLoop target rest maxMinor chosen
      else if maxMinor < minor then selectLoop target rest minor (some tag)
      else selectLoop target rest maxMinor chosen

/-- The tag-selection part of `run` (`main.go`): with exactly one tag in the
list that tag is taken unconditionally, otherwise the selection loop runs.
`none` models the zero-valued `choosenTag` (empty `Ref`). -/
def selectRelease (target : Nat) (tags : List GithubTag) : Option GithubTag :=
  if tags.length = 1 then tags.head?
  else selectLoop target tags 0 none

/-- Observable outcome of the tag-handling block of `run` (`main.go`):
an empty tag list falls back to downloading the latest unversioned `user.js`;
otherwise the chosen tag's `Ref` is parsed by `VersionString`, whose failure
aborts `run` with the error `invalid tag version`. -/
inductive RunTagsOutcome where
  | downloadLatest
  | downloadVersion (v : String)
  | invalidTagVersion
deriving DecidableEq

/-- The tag-handling block of `run` (`main.go`), from the emptiness test on
the unmarshalled tag list to the computation of `versionString`. -/
def runSelect (target : Nat) (tags : List GithubTag) : RunTagsOutcome :=
  if tags.isEmpty then .downloadLatest
  else
    match VersionString (((selectRelease target tags).map GithubTag.ref).getD "") with
    | none => .invalidTagVersion
    | some v => .downloadVersion v

/-- Whether a tag parses with the given major version; mirrors the two `skip`
conditions of the selection loop. -/
def tagMatches (target : Nat) (t : GithubTag) : Bool :=
  match VersionMajorMinor t.ref with
  | some (major, _) => major = target
  | none => false

/-- Parsed minor version of a tag (0 when the tag does not parse). -/
def tagMinor (t : GithubTag) : Nat :=
  match VersionMajorMinor t.ref with
  | some (_, minor) => minor
  | none => 0


/-! ## JSON values and the `encoding/json` grammar -/


/-- Whitespace characters of the JSON grammar. -/
def jsonWsChar (c : Char) : Bool := c = ' ' || c = '\t' || c = '\n' || c = '\r'

/-- Drop leading JSON whitespace. -/
def skipWs (cs : List Char) : List Char := cs.dropWhile jsonWsChar

/-- Opening curly bracket character (code point 123). -/
def braceOpen : Char := Char.ofNat 123

/-- Closing curly bracket character (code point 125). -/
def braceClose : Char := Char.ofNat 125

/-- A parsed JSON value.  Numbers record whether the literal was a plain integer (no fraction, no exponent), which is what `encoding/json` requires when decoding into a Go `int`; non-integer literals keep no value since every use in `guid.go` rejects them. -/
inductive Json where
  | null
  | boolean (b : Bool)
  | num (isInt : Bool) (v : Int)
  | str (s : String)
  | arr (elems : List Json)
  | obj (entries : List (String × Json))

/-- Value of one hexadecimal digit. -/
def hexVal (c : Char) : Option Nat :=
  if 48 ≤ c.toNat ∧ c.toNat ≤ 57 then some (c.toNat - 48)
  else if 97 ≤ c.toNat ∧ c.toNat ≤ 102 then some (c.toNat - 87)
  else if 65 ≤ c.toNat ∧ c.toNat ≤ 70 then some (c.toNat - 55)
  else none

/-- Parse the remainder of a JSON string literal (the opening quote is already consumed), decoding the escape sequences accepted by `encoding/json` and rejecting raw control characters. -/
def parseJString : Nat → List Char → Option (List Char × List Char)
  | 0, _ => none
  | _+1, [] => none
  | fuel+1, c :: cs =>
    if c = '"' then some ([], cs)
    else if c = '\\' then
      match cs with
      | [] => none
      | e :: cs2 =>
        if e = '"' ∨ e = '\\' ∨ e = '/' then
          (parseJString fuel cs2).map (fun r => (e :: r.1, r.2))
        else if e = 'b' then (parseJString fuel cs2).map (fun r => (Char.ofNat 8 :: r.1, r.2))
        else if e = 'f' then (parseJString fuel cs2).map (fun r => (Char.ofNat 12 :: r.1, r.2))
        else if e = 'n' then (parseJString fuel cs2).map (fun r => ('\n' :: r.1, r.2))
        else if e = 'r' then (parseJString fuel cs2).map (fun r => ('\r' :: r.1, r.2))
        else if e = 't' then (parseJString fuel cs2).map (fun r => ('\t' :: r.1, r.2))
        else if e = 'u' then
          match cs2 with
          | h1 :: h2 :: h3 :: h4 :: cs3 =>
            match hexVal h1, hexVal h2, hexVal h3, hexVal h4 with
            | some v1, some v2, some v3, some v4 =>
              (parseJString fuel cs3).map
                (fun r => (Char.ofNat (((v1 * 16 + v2) * 16 + v3) * 16 + v4) :: r.1, r.2))
            | _, _, _, _ => none
          | _ => none
        else none
    else if c.toNat < 32 then none
    else (parseJString fuel cs).map (fun r => (c :: r.1, r.2))

/-- Parse an optional exponent part of a JSON number literal, reporting whether one was present. -/
def parseJExpPart (cs : List Char) : Option (Bool × List Char) :=
  match cs with
  | c :: cs1 =>
    if c = 'e' ∨ c = 'E' then
      let cs2 := match cs1 with
        | s :: r => if s = '+' ∨ s = '-' then r else cs1
        | [] => cs1
      let ds := cs2.takeWhile isDigitChar
      if ds = [] then none else some (true, cs2.dropWhile isDigitChar)
    else some (false, cs)
  | [] => some (false, [])

/-- Parse a JSON number literal, rejecting leading zeros as the JSON grammar does.  The recorded flag is true exactly for plain integer literals. -/
def parseJNumber (cs : List Char) : Option (Json × List Char) :=
  let neg : Bool := match cs with
    | '-' :: _ => true
    | _ => false
  let cs1 := match cs with
    | '-' :: rest => rest
    | _ => cs
  let ip := cs1.takeWhile isDigitChar
  let cs2 := cs1.dropWhile isDigitChar
  if ip = [] then none
  else if 1 < ip.length ∧ ip.head? = some '0' then none
  else
    let iv : Int := if neg then -(digitsVal ip : Int) else (digitsVal ip : Int)
    match cs2 with
    | '.' :: cs3 =>
      let fp := cs3.takeWhile isDigitChar
      if fp = [] then none
      else
        match parseJExpPart (cs3.dropWhile isDigitChar) with
        | some (_, rest) => some (Json.num false 0, rest)
        | none => none
    | _ =>
      match parseJExpPart cs2 with
      | some (hasExp, rest) =>
        if hasExp then some (Json.num false 0, rest) else some (Json.num true iv, rest)
      | none => none

/-- Parse the comma-separated elements of a non-empty JSON array, consuming the closing bracket.  The element parser is passed in, so the recursion is structural in the fuel. -/
def parseJItems (pv : List Char → Option (Json × List Char)) :
    Nat → List Char → Option (List Json × List Char)
  | 0, _ => none
  | fuel+1, cs =>
    match pv cs with
    | none => none
    | some (v, rest) =>
      match skipWs rest with
      | c :: rest2 =>
        if c = ',' then
          match parseJItems pv fuel (skipWs rest2) with
          | some (vs, rest3) => some (v :: vs, rest3)
          | none => none
        else if c = ']' then some ([v], rest2)
        else none
      | [] => none

/-- Parse the comma-separated members of a non-empty JSON object, consuming the closing curly bracket. -/
def parseJMembers (pv : List Char → Option (Json × List Char)) :
    Nat → List Char → Option (List (String × Json) × List Char)
  | 0, _ => none
  | fuel+1, cs =>
    match cs with
    | c :: cs1 =>
      if c = '"' then
        match parseJString (cs1.length + 1) cs1 with
        | none => none
        | some (key, afterKey) =>
          match skipWs afterKey with
          | ':' :: afterColon =>
            match pv (skipWs afterColon) with
            | none => none
            | some (v, rest) =>
              match skipWs rest with
              | d :: rest2 =>
                if d = ',' then
                  match skipWs rest2 with
                  | e :: rest3 =>
                    match parseJMembers pv fuel (e :: rest3) with
                    | some (ms, rest4) => some ((String.mk key, v) :: ms, rest4)
                    | none => none
                  | [] => none
                else if d = braceClose then some ([(String.mk key, v)], rest2)
                else none
              | [] => none
          | _ => none
      else none
    | [] => none

/-- Parse one JSON value.  The fuel bounds the nesting depth; callers supply the input length, which suffices. -/
def parseJValue : Nat → List Char → Option (Json × List Char)
  | 0, _ => none
  | fuel+1, cs =>
    match cs with
    | [] => none
    | c :: cs1 =>
      if c = 'n' then
        match stripLit "ull".data cs1 with
        | some rest => some (Json.null, rest)
        | none => none
      else if c = 't' then
        match stripLit "rue".data cs1 with
        | some rest => some (Json.boolean true, rest)
        | none => none
      else if c = 'f' then
        match stripLit "alse".data cs1 with
        | some rest => some (Json.boolean false, rest)
        | none => none
      else if c = '"' then
        match parseJString (cs1.length + 1) cs1 with
        | some (content, rest) => some (Json.str (String.mk content), rest)
        | none => none
      else if c = '-' ∨ isDigitChar c then parseJNumber cs
      else if c = '[' then
        match skipWs cs1 with
        | ']' :: rest => some (Json.arr [], rest)
        | cs2 =>
          match parseJItems (parseJValue fuel) (cs2.length + 1) cs2 with
          | some (vs, rest) => some (Json.arr vs, rest)
          | none => none
      else if c = braceOpen then
        match skipWs cs1 with
        | [] => none
        | d :: rest =>
          if d = braceClose then some (Json.obj [], rest)
          else
            match parseJMembers (parseJValue fuel) ((d :: rest).length + 1) (d :: rest) with
            | some (ms, rest2) => some (Json.obj ms, rest2)
            | none => none
      else none

/-- Model of JSON syntax checking as done by `json.Unmarshal`: one value surrounded by optional whitespace and nothing else.  `none` is a syntax error. -/
def jsonParse (s : String) : Option Json :=
  match parseJValue (s.data.length + 1) (skipWs s.data) with
  | none => none
  | some (v, rest) => if skipWs rest = [] then some v else none


/-! ## Decoding into `extensionMetadata` (`guid.go`) -/


/-- ASCII lower-casing, used for the case-insensitive JSON field match of `encoding/json`. -/
def lowerChar (c : Char) : Char :=
  if 65 ≤ c.toNat ∧ c.toNat ≤ 90 then Char.ofNat (c.toNat + 32) else c

/-- Case-insensitive equality of field names, as used by `json.Unmarshal` when matching JSON object keys to Go struct fields. -/
def ciEq (s t : String) : Bool := s.data.map lowerChar == t.data.map lowerChar

/-- The `extensionMetadata` struct of `guid.go`: the `Addons.ByGUID` map, modelled as an association list in insertion order (Go map iteration order is unspecified; the spec itself notes the single-entry assumption). -/
structure ExtensionMetadata where
  byGUID : List (String × Int)
deriving DecidableEq

/-- Minimum value of Go `int64`. -/
def int64Min : Int := -9223372036854775808

/-- Insert or overwrite one key of the association-list model of a Go map. -/
def assocSet (l : List (String × Int)) (k : String) (v : Int) : List (String × Int) :=
  match l with
  | [] => [(k, v)]
  | (k', v') :: rest => if k' = k then (k', v) :: rest else (k', v') :: assocSet rest k v

/-- Decode the members of a JSON object into a `map[string]int`, as `encoding/json` does: integer literals within the `int64` range are stored, `null` stores the zero value, anything else is a decode error. -/
def intMapInsert (acc : List (String × Int)) : List (String × Json) → Option (List (String × Int))
  | [] => some acc
  | kv :: rest =>
    match kv.2 with
    | Json.num isInt v =>
      if isInt ∧ int64Min ≤ v ∧ v ≤ (maxInt64 : Int) then intMapInsert (assocSet acc kv.1 v) rest
      else none
    | Json.null => intMapInsert (assocSet acc kv.1 0) rest
    | _ => none

/-- Decode a JSON value into a `map[string]int`; `null` leaves the map unchanged. -/
def decodeIntoIntMap (acc : List (String × Int)) : Json → Option (List (String × Int))
  | Json.null => some acc
  | Json.obj entries => intMapInsert acc entries
  | _ => none

/-- Walk an `addons` object, decoding every field case-insensitively matching `ByGUID` into the map and ignoring unknown fields. -/
def addonsEntriesFold (acc : List (String × Int)) : List (String × Json) → Option (List (String × Int))
  | [] => some acc
  | kv :: rest =>
    if ciEq kv.1 "byGUID" then
      match decodeIntoIntMap acc kv.2 with
      | some acc2 => addonsEntriesFold acc2 rest
      | none => none
    else addonsEntriesFold acc rest

/-- Decode a JSON value into the anonymous `Addons` struct of `extensionMetadata`. -/
def decodeAddonsSection (acc : List (String × Int)) : Json → Option (List (String × Int))
  | Json.null => some acc
  | Json.obj entries => addonsEntriesFold acc entries
  | _ => none

/-- Walk the top-level object, decoding every field case-insensitively matching `Addons` and ignoring unknown fields. -/
def metadataEntriesFold (acc : List (String × Int)) : List (String × Json) → Option (List (String × Int))
  | [] => some acc
  | kv :: rest =>
    if ciEq kv.1 "addons" then
      match decodeAddonsSection acc kv.2 with
      | some acc2 => metadataEntriesFold acc2 rest
      | none => none
    else metadataEntriesFold acc rest

/-- Decode a parsed JSON value into `extensionMetadata`; errors mirror the type errors of `json.Unmarshal`. -/
def decodeMetadata : Json → Option ExtensionMetadata
  | Json.null => some ⟨[]⟩
  | Json.obj entries =>
    match metadataEntriesFold [] entries with
    | some l => some ⟨l⟩
    | none => none
  | _ => none

/-- The `json.Unmarshal([]byte(jsonString), &m)` step of `extractGUIDFromHTML`: syntax check followed by decoding; both kinds of failure produce the same `json unmarshal failed` error in the Go code, hence a single `none`. -/
def parseMetadataString (s : String) : Option ExtensionMetadata :=
  match jsonParse s with
  | none => none
  | some v => decodeMetadata v
/-! ## Lenient HTML decoding (`encoding/xml` with `Strict = false`) -/


/-- Whitespace characters inside markup. -/
def xmlWsChar (c : Char) : Bool := c = ' ' || c = '\t' || c = '\n' || c = '\r'

/-- Drop leading markup whitespace. -/
def skipXmlWs (cs : List Char) : List Char := cs.dropWhile xmlWsChar

/-- Characters accepted in element and attribute names. -/
def isNameChar (c : Char) : Bool := c.isAlphanum || c = '-' || c = '_' || c = ':'

/-- A node of the decoded document: an element with its attributes, raw inner markup and child elements, or character data. -/
inductive HNode where
  | elem (name : String) (attrs : List (String × String)) (inner : List Char) (children : List HNode)
  | text (content : List Char)

/-- Parse the attribute list of an open tag up to the closing angle bracket, reporting whether the tag was self-closing.  Double-quoted, unquoted, and valueless attributes are accepted, matching the lenient Go decoder. -/
def parseAttrs : Nat → List Char → Option (List (String × String) × Bool × List Char)
  | 0, _ => none
  | fuel+1, cs =>
    match skipXmlWs cs with
    | [] => none
    | c :: rest =>
      if c = '>' then some ([], false, rest)
      else if c = '/' then
        match rest with
        | d :: rest2 => if d = '>' then some ([], true, rest2) else none
        | [] => none
      else
        let nm := (c :: rest).takeWhile isNameChar
        if nm = [] then none
        else
          let cs1 := (c :: rest).dropWhile isNameChar
          match skipXmlWs cs1 with
          | '=' :: cs2 =>
            match skipXmlWs cs2 with
            | '"' :: cs3 =>
              let v := cs3.takeWhile (fun ch => ch ≠ '"')
              match cs3.dropWhile (fun ch => ch ≠ '"') with
              | _ :: cs4 =>
                match parseAttrs fuel cs4 with
                | some (attrs, sc, r) => some ((String.mk nm, String.mk v) :: attrs, sc, r)
                | none => none
              | [] => none
            | cs3 =>
              let v := cs3.takeWhile (fun ch => !(xmlWsChar ch) && ch ≠ '>' && ch ≠ '/')
              if v = [] then none
              else
                match parseAttrs fuel (cs3.dropWhile (fun ch => !(xmlWsChar ch) && ch ≠ '>' && ch ≠ '/')) with
                | some (attrs, sc, r) => some ((String.mk nm, String.mk v) :: attrs, sc, r)
                | none => none
          | _ =>
            match parseAttrs fuel cs1 with
            | some (attrs, sc, r) => some ((String.mk nm, "") :: attrs, sc, r)
            | none => none

/-- Parse a sequence of sibling nodes until a close tag or the end of input.  Mirrors the `Strict = false` behaviour of `encoding/xml`: comments, doctypes and processing instructions are skipped, and a close tag that does not match the open element makes the parser invent the missing end tag (the element ends there and the close tag is left for an enclosing element), as does the end of input.  The raw inner markup of each element is recorded, matching the `,innerxml` struct tag. -/
def parseHNodes : Nat → List Char → Option (List HNode × List Char)
  | 0, _ => none
  | fuel+1, cs =>
    match cs with
    | [] => some ([], [])
    | '<' :: rest =>
      match rest with
      | [] => none
      | d :: rest2 =>
        if d = '/' then some ([], cs)
        else if d = '!' ∨ d = '?' then
          match rest2.dropWhile (fun ch => ch ≠ '>') with
          | _ :: rest3 => parseHNodes fuel rest3
          | [] => none
        else
          let nm := (d :: rest2).takeWhile isNameChar
          if nm = [] then none
          else
            match parseAttrs (rest.length + 1) ((d :: rest2).dropWhile isNameChar) with
            | none => none
            | some (attrs, selfClosing, body0) =>
              if selfClosing then
                match parseHNodes fuel body0 with
                | some (siblings, rest') =>
                  some (HNode.elem (String.mk nm) attrs [] [] :: siblings, rest')
                | none => none
              else
                match parseHNodes fuel body0 with
                | none => none
                | some (kids, afterKids) =>
                  let innerRaw := body0.take (body0.length - afterKids.length)
                  match afterKids with
                  | '<' :: '/' :: closeRest =>
                    let cn := closeRest.takeWhile isNameChar
                    if cn = nm then
                      match skipXmlWs (closeRest.dropWhile isNameChar) with
                      | '>' :: afterClose =>
                        match parseHNodes fuel afterClose with
                        | some (siblings, rest') =>
                          some (HNode.elem (String.mk nm) attrs innerRaw kids :: siblings, rest')
                        | none => none
                      | _ => none
                    else some ([HNode.elem (String.mk nm) attrs innerRaw kids], afterKids)
                  | _ => some ([HNode.elem (String.mk nm) attrs innerRaw kids], afterKids)
    | _ =>
      let txt := cs.takeWhile (fun ch => ch ≠ '<')
      match parseHNodes fuel (cs.dropWhile (fun ch => ch ≠ '<')) with
      | some (siblings, rest') => some (HNode.text txt :: siblings, rest')
      | none => none

/-- One entry of the `Scripts` slice of the `extensionXML` struct of `guid.go`: the `id` attribute and the raw inner text of a `script` element under `body`. -/
structure ScriptTag where
  id : String
  inner : String
deriving DecidableEq

/-- First element among the top-level nodes; `xml.Decoder.Decode` skips leading character data and decodes the first element of the document. -/
def firstElem : List HNode → Option HNode
  | [] => none
  | HNode.elem n a i k :: _ => some (HNode.elem n a i k)
  | HNode.text _ :: rest => firstElem rest

/-- Child elements of a node with the given name; the nested tag path `body>script` of `extensionXML` matches chains of directly nested elements. -/
def elemChildrenNamed (nm : String) (n : HNode) : List HNode :=
  match n with
  | HNode.elem _ _ _ kids =>
    kids.filter (fun k =>
      match k with
      | HNode.elem n' _ _ _ => n' = nm
      | HNode.text _ => false)
  | HNode.text _ => []

/-- Value of the first attribute with the given name, or the empty string. -/
def attrValue (attrs : List (String × String)) (nm : String) : String :=
  match attrs.find? (fun a => a.1 = nm) with
  | some a => a.2
  | none => ""

/-- Project an element node to the `ScriptTag` fields selected by the `extensionXML` struct tags. -/
def scriptOfNode : HNode → ScriptTag
  | HNode.elem _ attrs inner _ => ⟨attrValue attrs "id", String.mk inner⟩
  | HNode.text _ => ⟨"", ""⟩

/-- All `script` elements that are direct children of a `body` element that is a direct child of the document element, in document order: the `body>script` field path of `extensionXML`. -/
def scriptTagsOf (root : HNode) : List ScriptTag :=
  (elemChildrenNamed "body" root).foldr
    (fun b acc => (elemChildrenNamed "script" b).map scriptOfNode ++ acc) []

/-- The `d.Decode(&x)` step of `extractGUIDFromHTML`: lenient parse of the page, then extraction of the `body>script` elements of the first document element.  `none` is a decode error. -/
def htmlDecode (page : String) : Option (List ScriptTag) :=
  match parseHNodes (page.data.length + 1) page.data with
  | none => none
  | some (nodes, _) =>
    match firstElem nodes with
    | none => none
    | some root => some (scriptTagsOf root)


/-! ## `extractGUIDFromHTML` and the manifest extractor (`guid.go`) -/


/-- The `redux-store-state` marker the extractor looks for. -/
def stateMarker : String := "redux-store-state"

/-- The script-scanning loop of `extractGUIDFromHTML`: `jsonString` is the inner text of the first script whose `id` equals the marker, and stays empty when none matches. -/
def findStateScript (scripts : List ScriptTag) : String :=
  match scripts.find? (fun s => s.id == stateMarker) with
  | some s => s.inner
  | none => ""

/-- The failure modes of `extractGUIDFromHTML`, one per `return` with an error: XML decode failure, the `jsonString is empty` error, the `json unmarshal failed` error, and the `not found` error. -/
inductive ExtractError where
  | decodeFailed
  | missingStateBlock
  | malformedJSON
  | notFound
deriving DecidableEq

/-- Embedding of `extractGUIDFromHTML` (`guid.go`): lenient XML decode, scan for the state script, emptiness check, JSON unmarshal, then the first key of the `ByGUID` map (head of the association list in this model; Go map iteration order is unspecified). -/
def extractGUIDFromHTML (page : String) : Except ExtractError String :=
  match htmlDecode page with
  | none => Except.error ExtractError.decodeFailed
  | some scripts =>
    let jsonString := findStateScript scripts
    if jsonString = "" then Except.error ExtractError.missingStateBlock
    else
      match parseMetadataString jsonString with
      | none => Except.error ExtractError.malformedJSON
      | some m =>
        match m.byGUID with
        | [] => Except.error ExtractError.notFound
        | (key, _) :: _ => Except.ok key

/-- The `Gecko` struct with its `ID` field. -/
structure GeckoSection where
  id : String
deriving DecidableEq

/-- The `BrowserSpecificSettings` section of `extensionManifest`. -/
structure BrowserSpecificSettingsSection where
  gecko : GeckoSection
deriving DecidableEq

/-- The `Applications` section of `extensionManifest`. -/
structure ApplicationsSection where
  gecko : GeckoSection
deriving DecidableEq

/-- The `extensionManifest` struct of `guid.go`, holding the two optional identifier paths. -/
structure ExtensionManifest where
  browser_specific_settings : BrowserSpecificSettingsSection
  applications : ApplicationsSection
deriving DecidableEq

/-- The `ID not found` failure of `extractGUIDFromZipFileManifest`. -/
inductive ManifestError where
  | idNotFound
deriving DecidableEq

/-- Embedding of the identifier selection of `extractGUIDFromZipFileManifest` (`guid.go`, after the JSON decode, whose input the claims quantify over): prefer `BrowserSpecificSettings.Gecko.ID`, fall back to `Applications.Gecko.ID`, fail when both are empty.  Opening the archive entry and decoding its JSON are the callers responsibility and are not part of the embedded function. -/
def extractGUIDFromManifest (m : ExtensionManifest) : Except ManifestError String :=
  let id0 := m.browser_specific_settings.gecko.id
  let id1 := if id0 = "" then m.applications.gecko.id else id0
  if id1 = "" then Except.error ManifestError.idNotFound else Except.ok id1


/-! ## Concrete pages used by the witnesses -/


/-- The embedded-state JSON of the specification example. -/
def jsonSpecExample : String := "\x7b\"addons\":\x7b\"byGUID\":\x7b\"uBlock0@raymondhill.net\":1\x7d\x7d\x7d"

/-- The marketplace page of the specification example: the state script inside a document body. -/
def pageSpecExample : String := "<html><body><script id=\"redux-store-state\">\x7b\"addons\":\x7b\"byGUID\":\x7b\"uBlock0@raymondhill.net\":1\x7d\x7d\x7d</script></body></html>"

/-- A page with no `redux-store-state` script. -/
def pageNoState : String := "<html><body><p>hello</p></body></html>"

/-- A page whose state script holds text that is not valid JSON. -/
def pageBadJson : String := "<html><body><script id=\"redux-store-state\">notjson</script></body></html>"

/-- A page whose state script is present but empty. -/
def pageEmptyState : String := "<html><body><script id=\"redux-store-state\"></script></body></html>"
/-! ## The declarative version pattern -/


/-- The input contains the substring `refs/tags/` immediately followed by one or more digits, a dot, and one or more digits: the declarative reading of the regular expression `refs/tags/([0-9]+)\\.([0-9]+)` having a match. -/
def ContainsVersionPattern (cs : List Char) : Prop :=
  ∃ l1 a b l2, cs = l1 ++ refsTagsLit ++ a ++ '.' :: b ++ l2 ∧
    a ≠ [] ∧ b ≠ [] ∧ (∀ c ∈ a, isDigitChar c = true) ∧ (∀ c ∈ b, isDigitChar c = true)


/-! ## Helper lemmas -/


theorem selectLoop_of_no_gt (target : Nat) :
    ∀ (l : List GithubTag) (m : Nat) (c : Option GithubTag),
      (∀ u ∈ l, tagMatches target u = true → tagMinor u ≤ m) →
      selectLoop target l m c = c := by
  intro l
  induction l with
  | nil => intro m c _; rfl
  | cons a rest ih =>
    intro m c h
    have hrest : ∀ u ∈ rest, tagMatches target u = true → tagMinor u ≤ m := by
      intro u hu; exact h u (by simp [hu])
    cases hv : VersionMajorMinor a.ref with
    | none => simpa [selectLoop, hv] using ih m c hrest
    | some p =>
      obtain ⟨maj, minor⟩ := p
      by_cases hm : maj = target
      · have hle : tagMinor a ≤ m := h a (by simp) (by simp [tagMatches, hv, hm])
        have hminor : ¬ (m < minor) := by
          simp [tagMinor, hv] at hle
          exact Nat.not_lt.mpr hle
        simpa [selectLoop, hv, hm, hminor] using ih m c hrest
      · simpa [selectLoop, hv, hm] using ih m c hrest

theorem selectLoop_picks (target : Nat) (t : GithubTag) :
    ∀ (l : List GithubTag) (m : Nat) (c : Option GithubTag),
      t ∈ l → l.count t = 1 → tagMatches target t = true → m < tagMinor t →
      (∀ u ∈ l, u ≠ t → tagMatches target u = true → tagMinor u < tagMinor t) →
      selectLoop target l m c = some t := by
  intro l
  induction l with
  | nil => intro m c h; cases h
  | cons a rest ih =>
    intro m c hmem hcount hmt hlt hmax
    by_cases hat : a = t
    · subst hat
      have hnot : a ∉ rest := by
        intro hmem'
        have h1 : 0 < rest.count a := List.count_pos_iff.mpr hmem'
        have h2 : (a :: rest).count a = rest.count a + 1 := by simp [List.count_cons]
        omega
      cases hv : VersionMajorMinor a.ref with
      | none => simp [tagMatches, hv] at hmt
      | some p =>
        obtain ⟨maj, minor⟩ := p
        have hmaj : maj = target := by simpa [tagMatches, hv] using hmt
        have hminor : m < minor := by simpa [tagMinor, hv] using hlt
        have hdone : selectLoop target rest minor (some a) = some a := by
          apply selectLoop_of_no_gt
          intro u hu hmu
          have hne : u ≠ a := fun h => hnot (h ▸ hu)
          have hlt' := hmax u (by simp [hu]) hne hmu
          have ha' : tagMinor a = minor := by simp [tagMinor, hv]
          omega
        simp [selectLoop, hv, hmaj, hminor, hdone]
    · have hmem' : t ∈ rest := by
        cases hmem with
        | head => exact absurd rfl hat
        | tail _ h => exact h
      have hcount' : rest.count t = 1 := by
        have hne : t ≠ a := fun h => hat h.symm
        simpa [List.count_cons, hne] using hcount
      have hmax' : ∀ u ∈ rest, u ≠ t → tagMatches target u = true → tagMinor u < tagMinor t := by
        intro u hu; exact hmax u (by simp [hu])
      cases hv : VersionMajorMinor a.ref with
      | none => simpa [selectLoop, hv] using ih m c hmem' hcount' hmt hlt hmax'
      | some p =>
        obtain ⟨maj, minor⟩ := p
        by_cases hm : maj = target
        · have hma : tagMatches target a = true := by simp [tagMatches, hv, hm]
          have hlta : tagMinor a < tagMinor t := hmax a (by simp) hat hma
          have hlta' : minor < tagMinor t := by simpa [tagMinor, hv] using hlta
          by_cases hgt : m < minor
          · simpa [selectLoop, hv, hm, hgt] using
              ih minor (some a) hmem' hcount' hmt hlta' hmax'
          · simpa [selectLoop, hv, hm, hgt] using ih m c hmem' hcount' hmt hlt hmax'
        · simpa [selectLoop, hv, hm] using ih m c hmem' hcount' hmt hlt hmax'

theorem stripLit_sound : ∀ (p cs rest : List Char), stripLit p cs = some rest → cs = p ++ rest := by
  intro p
  induction p with
  | nil => intro cs rest h; cases h; rfl
  | cons x ps ih =>
    intro cs rest h
    cases cs with
    | nil => cases h
    | cons c cs' =>
      rw [stripLit] at h
      by_cases hc : c = x
      · rw [if_pos hc] at h
        rw [hc, List.cons_append]
        exact congrArg _ (ih cs' rest h)
      · rw [if_neg hc] at h; cases h

theorem stripLit_complete : ∀ (p rest : List Char), stripLit p (p ++ rest) = some rest := by
  intro p
  induction p with
  | nil => intro rest; rfl
  | cons x ps ih => intro rest; simp [stripLit, ih]

theorem takeWhile_all_append (p : Char → Bool) :
    ∀ (a r : List Char), (∀ c ∈ a, p c = true) →
      (a ++ r).takeWhile p = a ++ r.takeWhile p ∧ (a ++ r).dropWhile p = r.dropWhile p := by
  intro a
  induction a with
  | nil => intro r _; exact ⟨rfl, rfl⟩
  | cons x xs ih =>
    intro r h
    have hx : p x = true := h x (by simp)
    have := ih r (fun c hc => h c (by simp [hc]))
    simp [List.takeWhile_cons, List.dropWhile_cons, hx, this.1, this.2]

theorem mem_of_takeWhile (p : Char → Bool) :
    ∀ (l : List Char), ∀ c ∈ l.takeWhile p, p c = true := by
  intro l
  induction l with
  | nil => intro c h; cases h
  | cons x xs ih =>
    intro c h
    rw [List.takeWhile_cons] at h
    by_cases hx : p x = true
    · rw [if_pos hx] at h
      cases h with
      | head => exact hx
      | tail _ h' => exact ih c h'
    · rw [if_neg hx] at h; cases h

theorem matchVersionAt_sound (cs a b : List Char) (h : matchVersionAt cs = some (a, b)) :
    ∃ l2, cs = refsTagsLit ++ a ++ '.' :: b ++ l2 ∧
      a ≠ [] ∧ b ≠ [] ∧ (∀ c ∈ a, isDigitChar c = true) ∧ (∀ c ∈ b, isDigitChar c = true) := by
  rw [matchVersionAt] at h
  cases hs : stripLit refsTagsLit cs with
  | none => rw [hs] at h; cases h
  | some rest =>
    rw [hs] at h
    simp only at h
    by_cases ha : rest.takeWhile isDigitChar = []
    · rw [if_pos ha] at h; cases h
    · rw [if_neg ha] at h
      cases hd : rest.dropWhile isDigitChar with
      | nil => rw [hd] at h; cases h
      | cons c rest2 =>
        rw [hd] at h
        dsimp only at h
        by_cases hc : c = '.'
        · rw [if_pos hc] at h
          by_cases hb : rest2.takeWhile isDigitChar = []
          · rw [if_pos hb] at h; cases h
          · rw [if_neg hb] at h
            injection h with h'
            injection h' with h1 h2
            refine ⟨rest2.dropWhile isDigitChar, ?_, ?_, ?_, ?_, ?_⟩
            · rw [stripLit_sound _ _ _ hs, ← h1, ← h2]
              have e1 : rest.takeWhile isDigitChar ++ rest.dropWhile isDigitChar = rest :=
                List.takeWhile_append_dropWhile ..
              have e2 : rest2.takeWhile isDigitChar ++ rest2.dropWhile isDigitChar = rest2 :=
                List.takeWhile_append_dropWhile ..
              conv_lhs => rw [← e1, hd, hc, ← e2]
              simp [List.append_assoc]
            · rw [← h1]; exact ha
            · rw [← h2]; exact hb
            · rw [← h1]; exact mem_of_takeWhile _ rest
            · rw [← h2]; exact mem_of_takeWhile _ rest2
        · rw [if_neg hc] at h; cases h

theorem findVersionMatch_sound :
    ∀ (cs a b : List Char), findVersionMatch cs = some (a, b) →
      ∃ l1 l2, cs = l1 ++ refsTagsLit ++ a ++ '.' :: b ++ l2 ∧
        a ≠ [] ∧ b ≠ [] ∧ (∀ c ∈ a, isDigitChar c = true) ∧ (∀ c ∈ b, isDigitChar c = true) := by
  intro cs
  induction cs with
  | nil => intro a b h; cases h
  | cons c cs' ih =>
    intro a b h
    rw [findVersionMatch] at h
    cases hm : matchVersionAt (c :: cs') with
    | some r =>
      rw [hm] at h
      injection h with h'
      obtain ⟨l2, hdec, h1, h2, h3, h4⟩ := matchVersionAt_sound (c :: cs') a b (h' ▸ hm)
      exact ⟨[], l2, by simpa using hdec, h1, h2, h3, h4⟩
    | none =>
      rw [hm] at h
      obtain ⟨l1, l2, hdec, h1, h2, h3, h4⟩ := ih a b h
      exact ⟨c :: l1, l2, by simp [hdec], h1, h2, h3, h4⟩

theorem matchVersionAt_complete (a b l2 : List Char)
    (ha : a ≠ []) (hb : b ≠ [])
    (hda : ∀ c ∈ a, isDigitChar c = true) (hdb : ∀ c ∈ b, isDigitChar c = true) :
    matchVersionAt (refsTagsLit ++ a ++ '.' :: b ++ l2)
      = some (a, b ++ l2.takeWhile isDigitChar) := by
  have hassoc : refsTagsLit ++ a ++ '.' :: b ++ l2
      = refsTagsLit ++ (a ++ '.' :: (b ++ l2)) := by
    simp [List.append_assoc]
  rw [hassoc, matchVersionAt, stripLit_complete]
  have hdot : isDigitChar '.' = false := by decide
  have e1 := takeWhile_all_append isDigitChar a ('.' :: (b ++ l2)) hda
  have et : ('.' :: (b ++ l2)).takeWhile isDigitChar = [] := by
    simp [List.takeWhile_cons, hdot]
  have ed : ('.' :: (b ++ l2)).dropWhile isDigitChar = '.' :: (b ++ l2) := by
    simp [List.dropWhile_cons, hdot]
  have e2 := takeWhile_all_append isDigitChar b l2 hdb
  dsimp only
  rw [e1.1, et, List.append_nil, if_neg ha, e1.2, ed]
  dsimp only
  rw [if_pos rfl, e2.1]
  have hbne : b ++ l2.takeWhile isDigitChar ≠ [] := by
    cases b with
    | nil => exact absurd rfl hb
    | cons x xs => simp
  rw [if_neg hbne]

theorem findVersionMatch_cons (c : Char) (cs : List Char) :
    findVersionMatch (c :: cs) =
      match matchVersionAt (c :: cs) with
      | some r => some r
      | none => findVersionMatch cs := rfl

theorem findVersionMatch_tail (c : Char) (cs : List Char)
    (h : (findVersionMatch cs).isSome = true) :
    (findVersionMatch (c :: cs)).isSome = true := by
  rw [findVersionMatch_cons]
  cases hm : matchVersionAt (c :: cs) with
  | some r => rfl
  | none => dsimp only; exact h

theorem findVersionMatch_complete :
    ∀ (l1 a b l2 : List Char), a ≠ [] → b ≠ [] →
      (∀ c ∈ a, isDigitChar c = true) → (∀ c ∈ b, isDigitChar c = true) →
      (findVersionMatch (l1 ++ refsTagsLit ++ a ++ '.' :: b ++ l2)).isSome = true := by
  intro l1
  induction l1 with
  | nil =>
    intro a b l2 ha hb hda hdb
    simp only [List.nil_append]
    have hm := matchVersionAt_complete a b l2 ha hb hda hdb
    cases hx : refsTagsLit ++ a ++ '.' :: b ++ l2 with
    | nil => simp [refsTagsLit] at hx
    | cons c cs =>
      rw [hx] at hm
      rw [findVersionMatch_cons, hm]
      rfl
  | cons x l1' ih =>
    intro a b l2 ha hb hda hdb
    simp only [List.cons_append]
    apply findVersionMatch_tail
    simpa only [List.cons_append] using ih a b l2 ha hb hda hdb

theorem digit_run_bound (cs l1 a l2 : List Char)
    (hrun : ∀ i, i < cs.length → ((cs.drop i).takeWhile isDigitChar).length ≤ 18)
    (hdec : cs = l1 ++ a ++ l2) (hd : ∀ c ∈ a, isDigitChar c = true) (ha : a ≠ []) :
    a.length ≤ 18 := by
  have hane : 0 < a.length := by
    cases a with
    | nil => exact absurd rfl ha
    | cons x xs => simp
  have hi : l1.length < cs.length := by
    subst hdec
    simp [List.length_append]
    omega
  have hdrop : cs.drop l1.length = a ++ l2 := by
    subst hdec
    rw [List.append_assoc]
    exact List.drop_left l1 (a ++ l2)
  have hb := hrun l1.length hi
  rw [hdrop, (takeWhile_all_append isDigitChar a l2 hd).1] at hb
  simp [List.length_append] at hb
  omega

theorem digitsVal_aux_lt :
    ∀ (a : List Char) (acc : Nat), (∀ c ∈ a, isDigitChar c = true) →
      a.foldl (fun n c => n * 10 + (c.toNat - 48)) acc < (acc + 1) * 10 ^ a.length := by
  intro a
  induction a with
  | nil => intro acc _; simp
  | cons x xs ih =>
    intro acc h
    have hx : x.toNat - 48 ≤ 9 := by
      have := h x (by simp)
      simp [isDigitChar] at this
      omega
    have hrec := ih (acc * 10 + (x.toNat - 48)) (fun c hc => h c (by simp [hc]))
    have hle : (acc * 10 + (x.toNat - 48) + 1) * 10 ^ xs.length ≤ (acc + 1) * 10 ^ (xs.length + 1) := by
      rw [pow_succ]
      have h10 : acc * 10 + (x.toNat - 48) + 1 ≤ (acc + 1) * 10 := by omega
      calc (acc * 10 + (x.toNat - 48) + 1) * 10 ^ xs.length
          ≤ (acc + 1) * 10 * 10 ^ xs.length := Nat.mul_le_mul_right _ h10
        _ = (acc + 1) * (10 ^ xs.length * 10) := by ring
    simp only [List.foldl_cons, List.length_cons]
    exact lt_of_lt_of_le hrec hle

theorem digitsVal_le_of_short (a : List Char) (hd : ∀ c ∈ a, isDigitChar c = true)
    (hlen : a.length ≤ 18) : digitsVal a ≤ maxInt64 := by
  have h1 : digitsVal a < (0 + 1) * 10 ^ a.length := digitsVal_aux_lt a 0 hd
  have h2 : (10:Nat) ^ a.length ≤ 10 ^ 18 := Nat.pow_le_pow_right (by omega) hlen
  have h3 : (10:Nat) ^ 18 ≤ maxInt64 + 1 := by norm_num [maxInt64]
  simp at h1
  omega

theorem goAtoi_eq_some (a : List Char) (hd : ∀ c ∈ a, isDigitChar c = true)
    (ha : a ≠ []) (hlen : a.length ≤ 18) : goAtoi a = some (digitsVal a) := by
  rw [goAtoi, if_neg ha, if_pos (digitsVal_le_of_short a hd hlen)]

theorem parseMetadataString_empty : parseMetadataString "" = none := rfl

theorem findState_find?_first (l1 : List ScriptTag) (s : ScriptTag) (l2 : List ScriptTag)
    (h : ∀ u ∈ l1, u.id ≠ stateMarker) (hid : s.id = stateMarker) :
    (l1 ++ s :: l2).find? (fun u => u.id == stateMarker) = some s := by
  induction l1 with
  | nil =>
    rw [List.nil_append]
    exact List.find?_cons_of_pos _ (by simp [hid])
  | cons a rest ih =>
    have ha : (a.id == stateMarker) = false := by
      simp
      exact h a (by simp)
    rw [List.cons_append]
    simp only [List.find?, ha]
    exact ih (fun u hu => h u (by simp [hu]))

theorem findStateScript_first (l1 : List ScriptTag) (s : ScriptTag) (l2 : List ScriptTag)
    (h : ∀ u ∈ l1, u.id ≠ stateMarker) (hid : s.id = stateMarker) :
    findStateScript (l1 ++ s :: l2) = s.inner := by
  rw [findStateScript, findState_find?_first l1 s l2 h hid]

theorem findStateScript_none (scripts : List ScriptTag)
    (h : ∀ u ∈ scripts, u.id ≠ stateMarker) : findStateScript scripts = "" := by
  rw [findStateScript]
  have hfind : scripts.find? (fun u => u.id == stateMarker) = none := by
    rw [List.find?_eq_none]
    intro x hx
    simp
    exact h x hx
  rw [hfind]

theorem extract_of_decode (page : String) (scripts : List ScriptTag)
    (hdec : htmlDecode page = some scripts) :
    extractGUIDFromHTML page =
      (if findStateScript scripts = "" then Except.error ExtractError.missingStateBlock
       else
         match parseMetadataString (findStateScript scripts) with
         | none => Except.error ExtractError.malformedJSON
         | some m =>
           match m.byGUID with
           | [] => Except.error ExtractError.notFound
           | (key, _) :: _ => Except.ok key) := by
  rw [extractGUIDFromHTML, hdec]
/-! ## The claims -/


/-- Claim C1: for every target major version and tag list in which at least two tags parse with major equal to the target, the release selector returns the tag with the strictly greatest minor version among the matching tags (such a tag occurs once and every other matching tag has a strictly smaller minor). -/
theorem C1_selector_max_minor (target : Nat) (tags : List GithubTag) (t : GithubTag)
    (htwo : 2 ≤ (tags.filter (fun u => tagMatches target u)).length)
    (hmem : t ∈ tags) (hmt : tagMatches target t = true)
    (hone : tags.count t = 1)
    (hmax : ∀ u ∈ tags, u ≠ t → tagMatches target u = true → tagMinor u < tagMinor t) :
    selectRelease target tags = some t := by
  have hlen : 2 ≤ tags.length :=
    le_trans htwo (List.length_filter_le _ _)
  have hne1 : tags.length ≠ 1 := by omega
  -- there is a matching tag other than t, so tagMinor t is positive
  have hstrict : 0 < tagMinor t := by
    by_contra hz
    -- then every element of the filtered list equals t
    have hall : ∀ u ∈ tags.filter (fun u => tagMatches target u), t = u := by
      intro u hu
      rcases List.mem_filter.mp hu with ⟨humem, humatch⟩
      by_contra hne
      have := hmax u humem (fun h => hne h.symm) humatch
      omega
    have hcnt : (tags.filter (fun u => tagMatches target u)).count t
        = (tags.filter (fun u => tagMatches target u)).length :=
      List.count_eq_length.mpr hall
    have hsub : (tags.filter (fun u => tagMatches target u)).count t ≤ tags.count t :=
      (List.filter_sublist _).count_le _
    omega
  rw [selectRelease, if_neg hne1]
  exact selectLoop_picks target t tags 0 none hmem hone hmt hstrict hmax

/-- Witness for C1 at the specification example: select_release(91, [91.0, 91.2, 92.0]) returns the 91.2 tag. -/
theorem C1_selector_max_minor_witness :
    selectRelease 91 [⟨"refs/tags/91.0", ""⟩, ⟨"refs/tags/91.2", ""⟩, ⟨"refs/tags/92.0", ""⟩]
      = some ⟨"refs/tags/91.2", ""⟩ :=
  C1_selector_max_minor 91 _ _ (by decide) (by decide) (by decide) (by decide) (by decide)

/-- Counterexample to claim C2: in the list [90.5, 91.0] exactly one tag parses with major 91, yet the selector does not return it; the single-candidate shortcut of the code keys on the length of the whole list, not on the number of matching candidates, and the matching tag has minor 0, which the loop never chooses. -/
theorem C2_counterexample :
    (([⟨"refs/tags/90.5", ""⟩, ⟨"refs/tags/91.0", ""⟩] : List GithubTag).filter
        (fun u => tagMatches 91 u)) = [⟨"refs/tags/91.0", ""⟩]
    ∧ selectRelease 91 [⟨"refs/tags/90.5", ""⟩, ⟨"refs/tags/91.0", ""⟩] = none := by decide

/-- Claim C2 as amended: when the tag list contains exactly one tag, the selector returns that tag directly, without parsing it and without the minor-version maximization; in particular select_release(91, [91.3]) returns the 91.3 tag. -/
theorem C2_amended_single_tag_shortcut (target : Nat) (t : GithubTag) :
    selectRelease target [t] = some t := rfl

/-- Counterexample to claim C3 at its own example: select_release(91, [90.5]) does not return None; the single-element shortcut returns the 90.5 tag without checking its major version. -/
theorem C3_counterexample :
    selectRelease 91 [⟨"refs/tags/90.5", ""⟩] = some ⟨"refs/tags/90.5", ""⟩ := by decide

/-- Claim C3 as amended: when no tag of a list of two or more parses with major equal to the target, no tag is chosen and `run` fails with the `invalid tag version` error; the fallback to the default unversioned source happens only for an empty tag list. -/
theorem C3_amended_no_match_no_fallback (target : Nat) (tags : List GithubTag)
    (hnone : ∀ u ∈ tags, tagMatches target u = false)
    (htwo : 2 ≤ tags.length) :
    runSelect target tags = .invalidTagVersion ∧ runSelect target [] = .downloadLatest := by
  refine ⟨?_, rfl⟩
  have hsel : selectRelease target tags = none := by
    rw [selectRelease, if_neg (by omega)]
    apply selectLoop_of_no_gt
    intro u hu hmu
    rw [hnone u hu] at hmu
    cases hmu
  have hemp : tags.isEmpty = false := by
    cases tags with
    | nil => simp at htwo
    | cons a l => rfl
  rw [runSelect, hemp, hsel]
  rfl

/-- Witness for the amended C3 on a two-element list with no matching tag. -/
theorem C3_amended_no_match_no_fallback_witness :
    runSelect 91 [⟨"refs/tags/90.5", ""⟩, ⟨"refs/tags/92.1", ""⟩] = .invalidTagVersion
    ∧ runSelect 91 [] = .downloadLatest :=
  C3_amended_no_match_no_fallback 91 _ (by decide) (by decide)

/-- Counterexample to claim C4: the ref `x` fails to parse, and its presence turns the succeeding call on [91.0] into the failing call on [x, 91.0] (it also fails alone, via the single-element shortcut), so unparseable tags can cause the overall selection to fail. -/
theorem C4_counterexample :
    VersionMajorMinor "x" = none
    ∧ runSelect 91 [⟨"x", ""⟩, ⟨"refs/tags/91.0", ""⟩] = .invalidTagVersion
    ∧ runSelect 91 [⟨"refs/tags/91.0", ""⟩] = .downloadVersion "91.0" := by decide

/-- Claim C4 as amended: inside the multi-tag selection loop, a tag whose ref fails to parse is silently skipped and has no effect on the result of the loop; an unparseable tag can still make the overall call fail, by being the single element the shortcut returns unconditionally or by growing the list past the shortcut. -/
theorem C4_amended_loop_skips_unparseable (target : Nat) (l1 l2 : List GithubTag) (b : GithubTag)
    (hb : VersionMajorMinor b.ref = none) (m : Nat) (c : Option GithubTag) :
    selectLoop target (l1 ++ b :: l2) m c = selectLoop target (l1 ++ l2) m c := by
  induction l1 generalizing m c with
  | nil => simp [selectLoop, hb]
  | cons a rest ih =>
    cases hv : VersionMajorMinor a.ref with
    | none => simp [selectLoop, hv, ih]
    | some p =>
      obtain ⟨maj, minor⟩ := p
      by_cases hm : maj ≠ target
      · simp [selectLoop, hv, hm, ih]
      · by_cases hgt : m < minor
        · simp [selectLoop, hv, hm, hgt, ih]
        · simp [selectLoop, hv, hm, hgt, ih]

/-- Witness for the amended C4: dropping the unparseable `junk` tag does not change the loop result. -/
theorem C4_amended_loop_skips_unparseable_witness :
    selectLoop 91 ([⟨"refs/tags/91.1", ""⟩] ++ ⟨"junk", ""⟩ :: [⟨"refs/tags/91.2", ""⟩]) 0 none
      = selectLoop 91 ([⟨"refs/tags/91.1", ""⟩] ++ [⟨"refs/tags/91.2", ""⟩]) 0 none :=
  C4_amended_loop_skips_unparseable 91 _ _ _ (by decide) 0 none

/-- Claim C5: for every page whose decoded state script parses as JSON with a non-empty `addons.byGUID` mapping, `extractGUIDFromHTML` returns the first key of the mapping, a key of that mapping, without error, and it fails with the `not found` error exactly when the mapping is empty. -/
theorem C5_page_extraction (page : String) (scripts : List ScriptTag) (m : ExtensionMetadata)
    (hdec : htmlDecode page = some scripts)
    (hps : parseMetadataString (findStateScript scripts) = some m) :
    (∀ k v rest, m.byGUID = (k, v) :: rest →
        extractGUIDFromHTML page = Except.ok k ∧ k ∈ m.byGUID.map Prod.fst)
    ∧ (extractGUIDFromHTML page = Except.error ExtractError.notFound ↔ m.byGUID = []) := by
  have hne : ¬ (findStateScript scripts = "") := by
    intro h0
    rw [h0, parseMetadataString_empty] at hps
    cases hps
  rw [extract_of_decode page scripts hdec, if_neg hne, hps]
  dsimp only
  refine ⟨?_, ?_⟩
  · intro k v rest hby
    rw [hby]
    dsimp only
    exact ⟨rfl, by simp⟩
  · cases hby : m.byGUID with
    | nil => simp
    | cons kv rest =>
      obtain ⟨k, v⟩ := kv
      simp

/-- Witness for C5 at the specification example page: extraction returns `uBlock0@raymondhill.net`. -/
theorem C5_page_extraction_witness :
    extractGUIDFromHTML pageSpecExample = Except.ok "uBlock0@raymondhill.net"
    ∧ "uBlock0@raymondhill.net" ∈
        (ExtensionMetadata.mk [("uBlock0@raymondhill.net", 1)]).byGUID.map Prod.fst :=
  (C5_page_extraction pageSpecExample [⟨stateMarker, jsonSpecExample⟩] ⟨[("uBlock0@raymondhill.net", 1)]⟩
    (by decide) (by decide)).1 "uBlock0@raymondhill.net" 1 [] rfl

/-- Counterexample to claim C6: this page contains a `redux-store-state` script whose text, the empty string, is not valid JSON, yet extraction fails with the missing-state-block error (`jsonString is empty`), not with the malformed-JSON error, because the emptiness check runs before the JSON parse. -/
theorem C6_counterexample :
    htmlDecode pageEmptyState = some [⟨stateMarker, ""⟩]
    ∧ jsonParse "" = none
    ∧ extractGUIDFromHTML pageEmptyState = Except.error ExtractError.missingStateBlock :=
  ⟨by decide, rfl, rfl⟩

/-- Claim C6 as amended: the extractor uses the first script under the body whose id equals `redux-store-state`; when no script matches it fails with the missing-state-block error, and when the first matching script has non-empty text that is not valid JSON it fails with the malformed-JSON error (empty text falls under the missing-state-block error instead). -/
theorem C6_amended_first_match_and_errors (page : String) (scripts : List ScriptTag)
    (hdec : htmlDecode page = some scripts) :
    ((∀ u ∈ scripts, u.id ≠ stateMarker) →
        extractGUIDFromHTML page = Except.error ExtractError.missingStateBlock)
    ∧ (∀ l1 s l2, scripts = l1 ++ s :: l2 →
        (∀ u ∈ l1, u.id ≠ stateMarker) → s.id = stateMarker → s.inner ≠ "" →
        jsonParse s.inner = none →
        extractGUIDFromHTML page = Except.error ExtractError.malformedJSON) := by
  constructor
  · intro h
    rw [extract_of_decode page scripts hdec, findStateScript_none scripts h, if_pos rfl]
  · intro l1 s l2 hsplit hfirst hid hne hjson
    have hfs : findStateScript scripts = s.inner := by
      rw [hsplit]
      exact findStateScript_first l1 s l2 hfirst hid
    have hpm : parseMetadataString s.inner = none := by
      rw [parseMetadataString, hjson]
    rw [extract_of_decode page scripts hdec, hfs, if_neg hne, hpm]

/-- Witness for the amended C6 on a page without the state script and on a page whose state script holds `notjson`. -/
theorem C6_amended_first_match_and_errors_witness :
    extractGUIDFromHTML pageNoState = Except.error ExtractError.missingStateBlock
    ∧ extractGUIDFromHTML pageBadJson = Except.error ExtractError.malformedJSON :=
  ⟨(C6_amended_first_match_and_errors pageNoState [] (by decide)).1 (by decide),
   (C6_amended_first_match_and_errors pageBadJson [⟨stateMarker, "notjson"⟩] (by decide)).2
     [] ⟨stateMarker, "notjson"⟩ [] rfl (by decide) rfl (by decide) rfl⟩

/-- Claim C7: for every parsed extension manifest, the archive GUID extractor returns the `browser_specific_settings.gecko.id` value if it is non-empty, otherwise the `applications.gecko.id` value if that is non-empty, and otherwise fails with the identifier-not-found error. -/
theorem C7_manifest_id_preference (m : ExtensionManifest) :
    (m.browser_specific_settings.gecko.id ≠ "" →
        extractGUIDFromManifest m = Except.ok m.browser_specific_settings.gecko.id)
    ∧ (m.browser_specific_settings.gecko.id = "" → m.applications.gecko.id ≠ "" →
        extractGUIDFromManifest m = Except.ok m.applications.gecko.id)
    ∧ (m.browser_specific_settings.gecko.id = "" → m.applications.gecko.id = "" →
        extractGUIDFromManifest m = Except.error ManifestError.idNotFound) := by
  refine ⟨fun h1 => ?_, fun h1 h2 => ?_, fun h1 h2 => ?_⟩
  · simp [extractGUIDFromManifest, h1]
  · simp [extractGUIDFromManifest, h1, h2]
  · simp [extractGUIDFromManifest, h1, h2]

/-- Witness for C7: with both paths populated the `browser_specific_settings` value wins, and with only `applications.gecko.id = x@y` present, `x@y` is returned. -/
theorem C7_manifest_id_preference_witness :
    extractGUIDFromManifest ⟨⟨⟨"a@b"⟩⟩, ⟨⟨"x@y"⟩⟩⟩ = Except.ok "a@b"
    ∧ extractGUIDFromManifest ⟨⟨⟨""⟩⟩, ⟨⟨"x@y"⟩⟩⟩ = Except.ok "x@y"
    ∧ extractGUIDFromManifest ⟨⟨⟨""⟩⟩, ⟨⟨""⟩⟩⟩ = Except.error ManifestError.idNotFound :=
  ⟨(C7_manifest_id_preference ⟨⟨⟨"a@b"⟩⟩, ⟨⟨"x@y"⟩⟩⟩).1 (by decide),
   (C7_manifest_id_preference ⟨⟨⟨""⟩⟩, ⟨⟨"x@y"⟩⟩⟩).2.1 rfl (by decide),
   (C7_manifest_id_preference ⟨⟨⟨""⟩⟩, ⟨⟨""⟩⟩⟩).2.2 rfl rfl⟩

/-- Claim C8: for every list of two or more tags in which every tag parsing with the target major has minor version 0, the selection in `run` fails with the `invalid tag version` error rather than returning any of those tags; the running maximum starts at 0 and the comparison is strict. -/
theorem C8_zero_minor_invalid_tag (target : Nat) (tags : List GithubTag)
    (htwo : 2 ≤ tags.length)
    (hz : ∀ u ∈ tags, tagMatches target u = true → tagMinor u = 0) :
    runSelect target tags = .invalidTagVersion := by
  have hsel : selectRelease target tags = none := by
    rw [selectRelease, if_neg (by omega)]
    apply selectLoop_of_no_gt
    intro u hu hmu
    exact le_of_eq (hz u hu hmu)
  have hemp : tags.isEmpty = false := by
    cases tags with
    | nil => simp at htwo
    | cons a l => rfl
  rw [runSelect, hemp, hsel]
  rfl

/-- Witness for C8 on the list [91.0, 92.1] with target 91. -/
theorem C8_zero_minor_invalid_tag_witness :
    runSelect 91 [⟨"refs/tags/91.0", ""⟩, ⟨"refs/tags/92.1", ""⟩] = .invalidTagVersion :=
  C8_zero_minor_invalid_tag 91 _ (by decide) (by decide)

/-- Claim C9: when the first matching `redux-store-state` script exists but has empty inner text, `extractGUIDFromHTML` fails with the same `jsonString is empty` (missing-state-block) error as when the script is entirely absent. -/
theorem C9_empty_state_same_as_missing (page page2 : String) (scripts scripts2 : List ScriptTag)
    (l1 : List ScriptTag) (s : ScriptTag) (l2 : List ScriptTag)
    (hdec : htmlDecode page = some scripts) (hsplit : scripts = l1 ++ s :: l2)
    (hfirst : ∀ u ∈ l1, u.id ≠ stateMarker) (hid : s.id = stateMarker) (hempty : s.inner = "")
    (hdec2 : htmlDecode page2 = some scripts2)
    (hnone : ∀ u ∈ scripts2, u.id ≠ stateMarker) :
    extractGUIDFromHTML page = Except.error ExtractError.missingStateBlock
    ∧ extractGUIDFromHTML page2 = Except.error ExtractError.missingStateBlock := by
  constructor
  · have hfs : findStateScript scripts = "" := by
      rw [hsplit, findStateScript_first l1 s l2 hfirst hid, hempty]
    rw [extract_of_decode page scripts hdec, hfs, if_pos rfl]
  · rw [extract_of_decode page2 scripts2 hdec2, findStateScript_none scripts2 hnone, if_pos rfl]

/-- Witness for C9 on a page with an empty state script and a page with no state script. -/
theorem C9_empty_state_same_as_missing_witness :
    extractGUIDFromHTML pageEmptyState = Except.error ExtractError.missingStateBlock
    ∧ extractGUIDFromHTML pageNoState = Except.error ExtractError.missingStateBlock :=
  C9_empty_state_same_as_missing pageEmptyState pageNoState [⟨stateMarker, ""⟩] [] [] ⟨stateMarker, ""⟩ []
    (by decide) rfl (by decide) rfl rfl (by decide) (by decide)

/-- Counterexample to claim C10: the ref `refs/tags/9223372036854775808.0` contains `refs/tags/` immediately followed by digits, a dot, and digits, yet parsing fails, because the major component exceeds the `int64` range of `strconv.Atoi`. -/
theorem C10_counterexample :
    VersionMajorMinor "refs/tags/9223372036854775808.0" = none
    ∧ ContainsVersionPattern "refs/tags/9223372036854775808.0".data := by
  refine ⟨by decide,
    [], "9223372036854775808".data, ['0'], [], by decide, by decide, by decide, by decide, by decide⟩

/-- Claim C10 as amended: for refs in which every digit run has at most 18 digits (so both captured components fit in an `int64`), `VersionMajorMinor` succeeds exactly on the strings containing `refs/tags/` immediately followed by digits, a dot, and digits; a patch component or trailing text is ignored, `refs/tags/91.2.9` and `refs/tags/91.2-beta` both yield the pair (91, 2), and `refs/tags/91` fails. -/
theorem C10_amended_pattern_characterization (s : String)
    (hrun : ∀ i, i < s.data.length → ((s.data.drop i).takeWhile isDigitChar).length ≤ 18) :
    ((VersionMajorMinor s).isSome = true ↔ ContainsVersionPattern s.data)
    ∧ VersionMajorMinor "refs/tags/91.2.9" = some (91, 2)
    ∧ VersionMajorMinor "refs/tags/91.2-beta" = some (91, 2)
    ∧ VersionMajorMinor "refs/tags/91" = none := by
  refine ⟨⟨?_, ?_⟩, by decide, by decide, by decide⟩
  · intro h
    rw [VersionMajorMinor] at h
    cases hf : findVersionMatch s.data with
    | none => rw [hf] at h; cases h
    | some p =>
      obtain ⟨a, b⟩ := p
      obtain ⟨l1, l2, hdec, ha, hb, hda, hdb⟩ := findVersionMatch_sound s.data a b hf
      exact ⟨l1, a, b, l2, hdec, ha, hb, hda, hdb⟩
  · rintro ⟨l1, a, b, l2, hdec, ha, hb, hda, hdb⟩
    have hsome : (findVersionMatch s.data).isSome = true := by
      rw [hdec]
      exact findVersionMatch_complete l1 a b l2 ha hb hda hdb
    cases hf : findVersionMatch s.data with
    | none => rw [hf] at hsome; cases hsome
    | some p =>
      obtain ⟨a', b'⟩ := p
      obtain ⟨l1', l2', hdec', ha', hb', hda', hdb'⟩ := findVersionMatch_sound s.data a' b' hf
      have hlena : a'.length ≤ 18 := by
        apply digit_run_bound s.data (l1' ++ refsTagsLit) a' ('.' :: b' ++ l2') hrun ?_ hda' ha'
        simp [hdec', List.append_assoc]
      have hlenb : b'.length ≤ 18 := by
        apply digit_run_bound s.data (l1' ++ refsTagsLit ++ a' ++ ['.']) b' l2' hrun ?_ hdb' hb'
        simp [hdec', List.append_assoc]
      rw [VersionMajorMinor, hf]
      dsimp only
      rw [goAtoi_eq_some a' hda' ha' hlena, goAtoi_eq_some b' hdb' hb' hlenb]
      rfl

/-- Witness for the amended C10 at `refs/tags/91.2.9`. -/
theorem C10_amended_pattern_characterization_witness :
    (((VersionMajorMinor "refs/tags/91.2.9").isSome = true ↔
        ContainsVersionPattern "refs/tags/91.2.9".data)
      ∧ VersionMajorMinor "refs/tags/91.2.9" = some (91, 2)
      ∧ VersionMajorMinor "refs/tags/91.2-beta" = some (91, 2)
      ∧ VersionMajorMinor "refs/tags/91" = none) :=
  C10_amended_pattern_characterization "refs/tags/91.2.9" (by decide)
